import Mathlib

/-!
Verification of the quantitative analytics core of the Algo-Trading repository.

Each definition below is a shallow embedding of a Python function from the
repository source, translated over exact rational arithmetic (`ℚ`), with
pandas/numpy missing values (`NaN`) modelled as `Option` where they matter.
Theorems settle the frozen claims about those functions.
-/

/- ===================================================================
   Timezone analysis
   Source: src/scanner_bot/fx_insight_bot/src/analysis/timezone.py
   =================================================================== -/

/-- The eight 3-hour granular slots `GRANULAR_SLOTS` (label, start hour, end
hour, UTC), copied from `timezone.py` lines 28-37. -/
def GRANULAR_SLOTS : List (String × ℕ × ℕ) :=
  [("8am-11am", 8, 11),
   ("11am-2pm", 11, 14),
   ("2pm-5pm", 14, 17),
   ("5pm-8pm", 17, 20),
   ("8pm-11pm", 20, 23),
   ("11pm-2am", 23, 2),
   ("2am-5am", 2, 5),
   ("5am-8am", 5, 8)]

/-- Embedding of `_hour_mask` from `timezone.py` lines 40-47, applied to a single hour of
day `h`: hours within `[start_h, end_h)`, with the midnight wrap handled by
the disjunctive branch when `start_h ≥ end_h`. -/
def hour_mask (start_h end_h h : ℕ) : Bool :=
  if start_h < end_h then decide (start_h ≤ h) && decide (h < end_h)
  else decide (start_h ≤ h) || decide (h < end_h)

/- ===================================================================
   PCA core
   Source: src/tele_bot/src/analysis/pca_core.py
   =================================================================== -/

/-- Embedding of `detect_regime` from `pca_core.py` lines 83-97, with the thresholds
passed explicitly (the source defaults are `pc1_threshold = 0.60`,
`dim_threshold = 3.0`). -/
def detect_regime (var_explained_pc1 eff_dim pc1_threshold dim_threshold : ℚ) : String :=
  if var_explained_pc1 > pc1_threshold ∨ eff_dim < dim_threshold then
    "Dimensionality Collapse"
  else
    "Normal"

/- ===================================================================
   Technical matrix: positioning signal
   Source: src/scanner_bot/fx_insight_bot/src/analysis/technical_matrix.py
   =================================================================== -/

/-- Embedding of `positioning_signal` from `technical_matrix.py` lines 131-168: the
MAA/UD/RS decision table, branch for branch. -/
def positioning_signal (maa ud rs : ℚ) : String :=
  if maa > 60 then
    if ud > 80 ∧ rs > 80 then "Bearish"
    else if ud < 50 ∧ rs < 50 then "Bullish"
    else if ud > 80 ∨ rs > 80 then "Sl. Bearish"
    else if ud < 50 ∨ rs < 50 then "Sl. Bullish"
    else "No Signal"
  else if maa < 40 then
    if ud < 20 ∧ rs < 20 then "Bullish"
    else if ud > 50 ∧ rs > 50 then "Bearish"
    else if ud < 20 ∨ rs < 20 then "Sl. Bullish"
    else if ud > 50 ∨ rs > 50 then "Sl. Bearish"
    else "No Signal"
  else "No Signal"

/- ===================================================================
   Event analysis classifier
   Source: src/tele_bot/src/analysis/event_analysis.py
   =================================================================== -/

/-- Embedding of `_classify_signal` from `event_analysis.py` lines 100-124: first matching
rule wins, default "No Signal".  The caller `compute_event_signal` passes the
defaults `spot_threshold = 1.0`, `rv_rise_threshold = 0.5`,
`rv_sharp_rise = 1.0`, `rv_fall_threshold = -0.2`. -/
def classify_signal
    (spot_ret rv_1m_chg vix_chg
     spot_threshold rv_rise_threshold rv_sharp_rise rv_fall_threshold : ℚ) : String :=
  if spot_ret < -spot_threshold ∧ rv_1m_chg > rv_rise_threshold ∧ vix_chg > 0 then
    "Bearish Cont."
  else if spot_ret > spot_threshold ∧ rv_1m_chg > rv_sharp_rise then
    "Bearish Contr."
  else if spot_ret > spot_threshold ∧ rv_1m_chg < rv_fall_threshold then
    "Bullish Cont."
  else if spot_ret < -spot_threshold ∧ rv_1m_chg < rv_fall_threshold ∧ vix_chg < 0 then
    "Bullish Contr."
  else
    "No Signal"

/- ===================================================================
   Technical matrix: MAA
   Source: src/scanner_bot/fx_insight_bot/src/analysis/technical_matrix.py
   =================================================================== -/

/-- Embedding of `MA_PAIRS` from `technical_matrix.py` lines 20-30: the 28 short/long SMA
comparison pairs. -/
def MA_PAIRS : List (ℕ × ℕ) :=
  [(5, 20), (5, 50), (5, 100), (5, 200),
   (10, 20), (10, 50), (10, 100), (10, 200),
   (15, 50), (15, 100), (15, 200),
   (20, 50), (20, 100), (20, 200),
   (25, 50), (25, 100), (25, 200),
   (30, 50), (30, 100), (30, 200),
   (35, 50), (35, 100), (35, 200),
   (40, 50), (40, 100), (40, 200),
   (50, 100), (50, 200)]

/-- The last rolling value `sma(series, window).iloc[-1]` where
`sma = series.rolling(window).mean()`.  The rolling series has the same
length as its input, so `.iloc[-1]` raises `IndexError` exactly when the
input series is empty (outer `none`); on a nonempty series shorter than the
window the last rolling value is `NaN` (inner `none`); otherwise it is the
mean of the last `window` values. -/
def sma_last (close : List ℚ) (window : ℕ) : Option (Option ℚ) :=
  if close = [] then none
  else if close.length < window then some none
  else some (some ((close.drop (close.length - window)).sum / window))

/-- One iteration of the `compute_maa` loop (`technical_matrix.py` lines
41-45): outer `none` when the SMA lookup raises, inner `none` when either
SMA is `NaN` at the last point (the pair is skipped by the `notna` check),
else the binary signal. -/
def maa_signal (close : List ℚ) (p : ℕ × ℕ) : Option (Option ℕ) :=
  match sma_last close p.1, sma_last close p.2 with
  | some (some s), some (some l) => some (some (if s > l then 1 else 0))
  | some _, some _ => some none
  | _, _ => none

/-- The `for` loop of `compute_maa`: an exception in any iteration aborts
the whole computation (`none`); otherwise the defined binary signals are
collected in order. -/
def collect_signals (close : List ℚ) : List (ℕ × ℕ) → Option (List ℕ)
  | [] => some []
  | p :: ps =>
      match maa_signal close p, collect_signals close ps with
      | some (some s), some rest => some (s :: rest)
      | some none, some rest => some rest
      | _, _ => none

/-- Embedding of `compute_maa` from `technical_matrix.py` lines 33-48;
`none` models the `IndexError` escaping to the caller. -/
def compute_maa (close : List ℚ) : Option ℚ :=
  match collect_signals close MA_PAIRS with
  | none => none
  | some signals =>
      some (if signals = [] then 50 else 100 * (signals.sum : ℚ) / signals.length)

/-- Embedding of `percentile_rank` from `indicators.py` lines 180-185.  A history entry
`none` models a `NaN` (dropped by `history.dropna()`). -/
def percentile_rank (value : ℚ) (history : List (Option ℚ)) : ℚ :=
  let valid := history.filterMap id
  if valid.length = 0 then 50
  else ((valid.countP (fun w => decide (w < value))) : ℚ) / valid.length * 100

/- ===================================================================
   RSI
   Source: src/tele_bot/src/analysis/indicators.py
   =================================================================== -/

/-- Consecutive price differences, `close.diff()` with the leading `NaN`
dropped (the `NaN` never reaches the exponential mean, which skips it). -/
def diffs (close : List ℚ) : List ℚ :=
  (close.zip close.tail).map (fun p => p.2 - p.1)

/-- Last value of `series.ewm(alpha=α, adjust=False).mean()` over a list of
plain values: the recursion `y ← (1-α)·y + α·x` seeded with the first value.
The empty case is unreachable in the claims (guarded by series length). -/
def ewm_last (alpha : ℚ) : List ℚ → ℚ
  | [] => 0
  | x :: xs => xs.foldl (fun y v => (1 - alpha) * y + alpha * v) x

/-- The smoothed average gain at the last point of `rsi` (`indicators.py`
lines 119-123): deltas clipped from below at 0, then Wilder-smoothed. -/
def avg_gain (close : List ℚ) (period : ℕ) : ℚ :=
  ewm_last (1 / (period : ℚ)) ((diffs close).map (fun d => max d 0))

/-- The smoothed average loss at the last point of `rsi` (`indicators.py`
lines 119-124): negated deltas clipped from below at 0, Wilder-smoothed. -/
def avg_loss (close : List ℚ) (period : ℕ) : ℚ :=
  ewm_last (1 / (period : ℚ)) ((diffs close).map (fun d => max (-d) 0))

/-- Embedding of `rsi` from `indicators.py` lines 118-134, evaluated at the last point.
The two masks are applied in sequence in the source, so the up-only mask
(applied last) takes priority; the epsilon `1e-12` substitutes for a zero
average loss in the raw formula. -/
def rsi_last (close : List ℚ) (period : ℕ) : ℚ :=
  if avg_loss close period = 0 ∧ 0 < avg_gain close period then 100
  else if avg_gain close period = 0 ∧ avg_loss close period = 0 then 50
  else 100 - 100 / (1 + avg_gain close period /
    (if avg_loss close period = 0 then 1 / 1000000000000 else avg_loss close period))

/- ===================================================================
   PCA eigenvalue pipeline
   Source: src/tele_bot/src/analysis/pca_core.py  (pca_on_correlation)
   =================================================================== -/

/-- Embedding of `np.cumsum` over a list: entry `i` is the sum of the first `i+1`
elements. -/
def cumsum (xs : List ℚ) : List ℚ :=
  (List.range xs.length).map (fun i => (xs.take (i + 1)).sum)

/-- Embedding of `pca_on_correlation` from `pca_core.py` lines 8-64, with the external
eigendecomposition abstracted: `nObs` is the number of complete observations
(`len(clean)`), `nAssets` the number of assets (columns), and `eigenvalues`
the eigenvalue vector produced by `np.linalg.eigh` on the correlation matrix
(one per asset, in arbitrary order — the source immediately re-sorts it in
descending order via `argsort`, modelled as a descending sort).  Mirrors the
guards, the clipping of negative eigenvalues to 0, the retention of
`min(n_components, n)` components, and the `variance_explained` /
`cumulative_variance` computations; returns `none` exactly where the source
returns `None`. -/
def clipped_eigs (eigenvalues : List ℚ) : List ℚ :=
  (eigenvalues.insertionSort (· ≥ ·)).map (fun x => max x 0)

def retained_eigs (eigenvalues : List ℚ) (n_components nAssets : ℕ) : List ℚ :=
  (clipped_eigs eigenvalues).take (min n_components nAssets)

def var_explained (eigenvalues : List ℚ) (n_components nAssets : ℕ) : List ℚ :=
  (retained_eigs eigenvalues n_components nAssets).map
    (fun x => x / (clipped_eigs eigenvalues).sum)

def pca_on_correlation (nObs nAssets : ℕ) (eigenvalues : List ℚ)
    (n_components : ℕ) : Option (List ℚ × List ℚ × List ℚ) :=
  if nObs < 30 ∨ nAssets < 2 then none
  else if (clipped_eigs eigenvalues).sum = 0 then none
  else some (retained_eigs eigenvalues n_components nAssets,
    var_explained eigenvalues n_components nAssets,
    cumsum (var_explained eigenvalues n_components nAssets))

/- ===================================================================
   CARS: factor rankings and signal generation
   Source: src/scanner_bot/fx_insight_bot/src/analysis/cars.py
   =================================================================== -/

/-- pandas `Series.rank(ascending=False)` (method "average", the default)
for one value within a column: the mean of the ordinal positions of the tied
group, i.e. (count strictly greater) + ((count equal) + 1) / 2. -/
def rank_desc_avg (xs : List ℚ) (v : ℚ) : ℚ :=
  (xs.countP (fun w => decide (v < w)) : ℚ)
    + ((xs.countP (fun w => decide (w = v)) : ℚ) + 1) / 2

/-- One rank column of `compute_factor_rankings` (`cars.py` lines 127-131):
`df[col].rank(ascending=False).astype(int)`.  The cast truncates the
(always ≥ 1, hence positive) average rank toward zero, i.e. floors it. -/
def rank_column (xs : List ℚ) : List ℤ :=
  xs.map (fun v => ⌊rank_desc_avg xs v⌋)

/-- A row of the factor-ranking table consumed by `generate_cars_signals`. -/
structure RankRow where
  currency : String
  equity_rank : ℤ
  rates_rank : ℤ
  commodity_rank : ℤ
deriving DecidableEq

/-- The regime dict produced by `classify_regime` (`cars.py` lines 43-70). -/
structure Regime where
  is_shock : Bool
  equity_z : ℚ
  bond_z : ℚ
  commodity_z : ℚ

/-- A result row of `generate_cars_signals` (currency, Bullish/Bearish
label, and the three rank columns). -/
structure SignalRow where
  currency : String
  signal : String
  equity : ℤ
  rates : ℤ
  commodity : ℤ
deriving DecidableEq

/-- Embedding of `SAFE_HAVEN_CURRENCIES` from `cars.py` line 24. -/
def SAFE_HAVEN_CURRENCIES : List String := ["JPY", "CHF"]

/-- The performing factor (source passes the string "equity"/"rates"/
"commodity" and selects the column `f"{performing_factor}_rank"`). -/
inductive Factor where
| equity
| rates
| commodity

/-- Column lookup `row[f"{performing_factor}_rank"]`. -/
def factor_rank : Factor → RankRow → ℤ
  | Factor.equity, r => r.equity_rank
  | Factor.rates, r => r.rates_rank
  | Factor.commodity, r => r.commodity_rank

/-- Embedding of `factor_rankings.sort_values(rank_col)` (`cars.py` line 163): rows in
ascending order of the chosen factor's rank. -/
def sorted_by_factor (pf : Factor) (rows : List RankRow) : List RankRow :=
  rows.insertionSort (fun a b => factor_rank pf a ≤ factor_rank pf b)

/-- The positional base signal of the normal-week branch (`cars.py` lines
165-171): position `i` in rank order among `n` currencies.  Python's
`i >= n_currencies - 3` is integer arithmetic, hence the `ℤ` comparison. -/
def cars_base_signal (i n : ℕ) : String :=
  if i < 3 then "Bullish"
  else if (n : ℤ) - 3 ≤ (i : ℤ) then "Bearish"
  else ""

/-- The commodity overlay (`cars.py` lines 173-179).  Python's
`signal or s` yields `s` exactly when `signal` is the empty string. -/
def commodity_overlay (regime : Regime) (threshold : ℚ) (cm_rank : ℤ)
    (signal : String) : String :=
  if |regime.commodity_z| > threshold then
    if regime.commodity_z > threshold ∧ cm_rank ≤ 3 then
      (if signal = "" then "Bullish" else signal)
    else if regime.commodity_z < -threshold ∧ cm_rank ≤ 3 then
      (if signal = "" then "Bearish" else signal)
    else signal
  else signal

/-- Embedding of `generate_cars_signals` from `cars.py` lines 134-198 (the result rows;
the report metadata attached via `df.attrs` is not modelled). -/
def generate_cars_signals (regime : Regime) (factor_rankings : List RankRow)
    (performing_factor : Factor) (commodity_overlay_threshold : ℚ) :
    List SignalRow :=
  if regime.is_shock then
    factor_rankings.map (fun r =>
      SignalRow.mk r.currency
        (if r.currency ∈ SAFE_HAVEN_CURRENCIES then "Bullish" else "Bearish")
        r.equity_rank r.rates_rank r.commodity_rank)
  else
    (sorted_by_factor performing_factor factor_rankings).enum.map (fun p =>
      SignalRow.mk p.2.currency
        (commodity_overlay regime commodity_overlay_threshold p.2.commodity_rank
          (cars_base_signal p.1 factor_rankings.length))
        p.2.equity_rank p.2.rates_rank p.2.commodity_rank)

/-- Seven concrete ranking rows (distinct ranks 1..7 in every column) used
to exercise the normal-week branch of `generate_cars_signals`. -/
def sevenRows : List RankRow :=
  [RankRow.mk "AUD" 1 1 1, RankRow.mk "CAD" 2 2 2, RankRow.mk "EUR" 3 3 3,
   RankRow.mk "GBP" 4 4 4, RankRow.mk "JPY" 5 5 5, RankRow.mk "NOK" 6 6 6,
   RankRow.mk "NZD" 7 7 7]

/- ===================================================================
   Helper lemmas
   =================================================================== -/

lemma foldl_ewm_zeros (alpha : ℚ) :
    ∀ (xs : List ℚ) (y : ℚ), (∀ v ∈ xs, v = 0) → y = 0 →
      xs.foldl (fun y v => (1 - alpha) * y + alpha * v) y = 0
  | [], _, _, hy => hy
  | v :: xs, y, hxs, hy => by
      have hv : v = 0 := hxs v (by simp)
      apply foldl_ewm_zeros alpha xs
      · intro w hw; exact hxs w (by simp [hw])
      · rw [hv, hy]; ring

lemma ewm_last_zeros (alpha : ℚ) (xs : List ℚ) (h : ∀ v ∈ xs, v = 0) :
    ewm_last alpha xs = 0 := by
  cases xs with
  | nil => rfl
  | cons x xs =>
      exact foldl_ewm_zeros alpha xs x (fun w hw => h w (by simp [hw])) (h x (by simp))

lemma foldl_ewm_pos (alpha : ℚ) (h0 : 0 < alpha) (h1 : alpha < 1) :
    ∀ (xs : List ℚ) (y : ℚ), 0 ≤ y → (∀ v ∈ xs, 0 ≤ v) →
      (0 < y ∨ ∃ v ∈ xs, 0 < v) →
      0 < xs.foldl (fun y v => (1 - alpha) * y + alpha * v) y
  | [], y, _, _, hpos => by
      rcases hpos with hy | ⟨v, hv, _⟩
      · exact hy
      · exact absurd hv (List.not_mem_nil v)
  | v :: xs, y, hy, hxs, hpos => by
      have hv : 0 ≤ v := hxs v (by simp)
      have hy1 : 0 ≤ (1 - alpha) * y + alpha * v := by
        have := mul_nonneg (by linarith : (0:ℚ) ≤ 1 - alpha) hy
        have := mul_nonneg h0.le hv
        linarith
      apply foldl_ewm_pos alpha h0 h1 xs _ hy1
      · intro w hw; exact hxs w (by simp [hw])
      · rcases hpos with hy0 | ⟨w, hw, hwpos⟩
        · left
          have := mul_pos (by linarith : (0:ℚ) < 1 - alpha) hy0
          have := mul_nonneg h0.le hv
          linarith
        · rcases List.mem_cons.mp hw with rfl | hw2
          · left
            have := mul_pos h0 hwpos
            have := mul_nonneg (by linarith : (0:ℚ) ≤ 1 - alpha) hy
            linarith
          · exact Or.inr ⟨w, hw2, hwpos⟩

lemma ewm_last_pos (alpha : ℚ) (h0 : 0 < alpha) (h1 : alpha < 1) (xs : List ℚ)
    (hxs : ∀ v ∈ xs, 0 ≤ v) (hex : ∃ v ∈ xs, 0 < v) : 0 < ewm_last alpha xs := by
  cases xs with
  | nil => rcases hex with ⟨v, hv, _⟩; exact absurd hv (List.not_mem_nil v)
  | cons x xs =>
      apply foldl_ewm_pos alpha h0 h1 xs x (hxs x (by simp))
        (fun w hw => hxs w (by simp [hw]))
      rcases hex with ⟨v, hv, hvpos⟩
      rcases List.mem_cons.mp hv with rfl | hv2
      · exact Or.inl hvpos
      · exact Or.inr ⟨v, hv2, hvpos⟩

lemma sum_take_mono (xs : List ℚ) (h : ∀ x ∈ xs, 0 ≤ x) {i j : ℕ} (hij : i ≤ j) :
    (xs.take i).sum ≤ (xs.take j).sum := by
  have heq : xs.take i = (xs.take j).take i := by
    rw [List.take_take, Nat.min_eq_left hij]
  rw [heq]
  exact List.Sublist.sum_le_sum (List.take_sublist i _)
    (fun a ha => h a (List.mem_of_mem_take ha))

lemma cumsum_mono (xs : List ℚ) (h : ∀ x ∈ xs, 0 ≤ x) :
    (cumsum xs).Pairwise (· ≤ ·) := by
  unfold cumsum
  rw [List.pairwise_map]
  exact (List.pairwise_lt_range _).imp
    (fun hab => sum_take_mono xs h (Nat.succ_le_succ (Nat.le_of_lt hab)))

lemma sum_map_div (l : List ℚ) (t : ℚ) :
    (l.map (fun x => x / t)).sum = l.sum / t := by
  induction l with
  | nil => simp
  | cons x xs ih => simp [ih, add_div]

lemma collect_signals_all_skipped (close : List ℚ) :
    ∀ ps : List (ℕ × ℕ), (∀ p ∈ ps, maa_signal close p = some none) →
      collect_signals close ps = some []
  | [], _ => rfl
  | p :: ps, h => by
      unfold collect_signals
      rw [h p (by simp), collect_signals_all_skipped close ps
        (fun q hq => h q (by simp [hq]))]

lemma countP_eq_one_of_nodup (xs : List ℚ) (v : ℚ) (hnd : xs.Nodup) (hv : v ∈ xs) :
    xs.countP (fun w => decide (w = v)) = 1 := by
  induction xs with
  | nil => cases hv
  | cons a xs ih =>
      rw [List.countP_cons]
      rcases List.mem_cons.mp hv with rfl | hv2
      · have hnotin : v ∉ xs := (List.nodup_cons.mp hnd).1
        have hz : xs.countP (fun w => decide (w = v)) = 0 := by
          rw [List.countP_eq_zero]
          intro b hb
          simp only [decide_eq_true_eq]
          rintro rfl
          exact hnotin hb
        simp [hz]
      · have ha : ¬ (a = v) := by
          rintro rfl
          exact (List.nodup_cons.mp hnd).1 hv2
        rw [ih (List.nodup_cons.mp hnd).2 hv2]
        simp [ha]

lemma countP_gt_strict (xs : List ℚ) (u v : ℚ) (huv : u < v) (hv : v ∈ xs) :
    xs.countP (fun w => decide (v < w)) < xs.countP (fun w => decide (u < w)) := by
  induction xs with
  | nil => cases hv
  | cons a xs ih =>
      rw [List.countP_cons, List.countP_cons]
      rcases List.mem_cons.mp hv with rfl | hv2
      · have hmono : xs.countP (fun w => decide (v < w))
            ≤ xs.countP (fun w => decide (u < w)) := by
          apply List.countP_mono_left
          intro w _ hw
          simp only [decide_eq_true_eq] at hw ⊢
          linarith
        have h1 : (decide (v < v)) = false := by simp
        have h2 : (decide (u < v)) = true := by simp [huv]
        rw [h1, h2]
        try rw [if_neg (show ¬(false = true) by simp)]
        try rw [if_pos rfl]
        omega
      · have hstep := ih hv2
        by_cases hva : v < a
        · have hua : u < a := lt_trans huv hva
          have h1 : (decide (v < a)) = true := by simp [hva]
          have h2 : (decide (u < a)) = true := by simp [hua]
          rw [h1, h2]
          try rw [if_pos rfl]
          try rw [if_pos rfl]
          omega
        · have h1 : (decide (v < a)) = false := by simp [hva]
          rw [h1]
          try rw [if_neg (show ¬(false = true) by simp)]
          cases hcase : decide (u < a) with
          | false =>
              try rw [if_neg (show ¬(false = true) by simp)]
              omega
          | true =>
              try rw [if_pos rfl]
              omega

lemma rank_column_nodup_eq (xs : List ℚ) (hnd : xs.Nodup) :
    rank_column xs
      = xs.map (fun v => (xs.countP (fun w => decide (v < w)) : ℤ) + 1) := by
  unfold rank_column
  apply List.map_congr_left
  intro v hv
  unfold rank_desc_avg
  rw [countP_eq_one_of_nodup xs v hnd hv]
  have hcast : ((xs.countP (fun w => decide (v < w)) : ℚ) + (((1:ℕ) : ℚ) + 1) / 2)
      = (((xs.countP (fun w => decide (v < w)) : ℤ) + 1 : ℤ) : ℚ) := by
    push_cast
    ring
  rw [hcast, Int.floor_intCast]

lemma rank_list_perm (xs : List ℚ) (hnd : xs.Nodup) :
    (xs.map (fun v => xs.countP (fun w => decide (v < w)))).Perm
      (List.range xs.length) := by
  apply List.Subperm.perm_of_length_le
  · apply List.subperm_of_subset
    · apply List.Nodup.map_on ?_ hnd
      intro u hu v hv huv
      by_contra hne
      rcases lt_or_gt_of_ne hne with hlt | hgt
      · have := countP_gt_strict xs u v hlt hv
        omega
      · have := countP_gt_strict xs v u hgt hu
        omega
    · intro y hy
      rcases List.mem_map.mp hy with ⟨v, hv, rfl⟩
      rw [List.mem_range]
      have hle : xs.countP (fun w => decide (v < w)) ≤ xs.length :=
        List.countP_le_length (fun w => decide (v < w))
      rcases lt_or_eq_of_le hle with hlt | heq
      · exact hlt
      · exfalso
        have := List.countP_eq_length.mp heq v hv
        simp at this
  · rw [List.length_range, List.length_map]

/- ===================================================================
   Theorems
   =================================================================== -/

/-- C6: the eight granular timezone slots partition the 24 hours of the day:
every hour `0 ≤ h < 24` is selected by exactly one slot of `GRANULAR_SLOTS`,
and the midnight-wrapping 23:00-02:00 slot selects exactly the hours
23, 0 and 1. -/
theorem granular_slots_partition :
    (∀ h : ℕ, h < 24 →
      GRANULAR_SLOTS.countP (fun s => hour_mask s.2.1 s.2.2 h) = 1)
    ∧ (∀ h : ℕ, h < 24 →
      (hour_mask 23 2 h = true ↔ (h = 23 ∨ h = 0 ∨ h = 1))) := by
  decide

/-- C4: `detect_regime` returns "Dimensionality Collapse" exactly when the
first component's variance share strictly exceeds the pc1 threshold (default
0.60) or the effective dimensionality is strictly below the dim threshold
(default 3.0), else "Normal"; at the boundary, `detect_regime 0.60 3.0` is
"Normal" and `detect_regime 0.61 3.0` is "Dimensionality Collapse". -/
theorem detect_regime_spec :
    (∀ p e : ℚ,
      (detect_regime p e (6/10) 3 = "Dimensionality Collapse" ↔ (6/10 < p ∨ e < 3))
      ∧ (detect_regime p e (6/10) 3 = "Normal" ↔ ¬(6/10 < p ∨ e < 3)))
    ∧ detect_regime (60/100) 3 (6/10) 3 = "Normal"
    ∧ detect_regime (61/100) 3 (6/10) 3 = "Dimensionality Collapse" := by
  refine ⟨fun p e => ?_, by norm_num [detect_regime], by norm_num [detect_regime]⟩
  unfold detect_regime
  split_ifs with h
  · exact ⟨⟨fun _ => h, fun _ => rfl⟩, ⟨fun hs => absurd hs (by decide), fun hn => absurd h hn⟩⟩
  · exact ⟨⟨fun hs => absurd hs (by decide), fun hc => absurd hc h⟩, ⟨fun _ => h, fun _ => rfl⟩⟩

/-- C5: `positioning_signal` agrees with the spec decision table, stated in
the claim's order: the neutral band `40 ≤ maa ≤ 60` gives "No Signal"; in an
uptrend (`maa > 60`) Bearish when both UD and RS exceed 80, Bullish when both
are below 50, else the slightly variants when one side supports; mirrored in
a downtrend (`maa < 40`). -/
theorem positioning_signal_spec (maa ud rs : ℚ) :
    positioning_signal maa ud rs =
      if 40 ≤ maa ∧ maa ≤ 60 then "No Signal"
      else if maa > 60 then
        if ud > 80 ∧ rs > 80 then "Bearish"
        else if ud < 50 ∧ rs < 50 then "Bullish"
        else if ud > 80 ∨ rs > 80 then "Sl. Bearish"
        else if ud < 50 ∨ rs < 50 then "Sl. Bullish"
        else "No Signal"
      else
        if ud < 20 ∧ rs < 20 then "Bullish"
        else if ud > 50 ∧ rs > 50 then "Bearish"
        else if ud < 20 ∨ rs < 20 then "Sl. Bullish"
        else if ud > 50 ∨ rs > 50 then "Sl. Bearish"
        else "No Signal" := by
  unfold positioning_signal
  by_cases h60 : maa > 60
  · rw [if_pos h60, if_neg (show ¬(40 ≤ maa ∧ maa ≤ 60) by rintro ⟨_, h2⟩; linarith),
      if_pos h60]
  · by_cases h40 : maa < 40
    · rw [if_neg h60, if_pos h40,
        if_neg (show ¬(40 ≤ maa ∧ maa ≤ 60) by rintro ⟨h1, _⟩; linarith), if_neg h60]
    · rw [if_neg h60, if_neg h40, if_pos (show 40 ≤ maa ∧ maa ≤ 60 by
        constructor <;> linarith)]

/-- C3 counterexample: at `spot_ret = -2`, `rv_1m_chg = 1`, `vix_chg = 1`
(default thresholds), the first rule matches but the classifier returns the
abbreviated label "Bearish Cont.", not the claimed string
"Bearish Continuation". -/
theorem classify_signal_label_counterexample :
    classify_signal (-2) 1 1 1 (1/2) 1 (-1/5) = "Bearish Cont."
    ∧ ("Bearish Cont." : String) ≠ "Bearish Continuation" := by
  constructor
  · norm_num [classify_signal]
  · decide

/-- C3 (amended): with the default thresholds (spot 1.0, rv rise 0.5, rv
sharp rise 1.0, rv fall -0.2), the classifier returns the signal of the
first matching rule, in the order Bearish continuation, Bearish contrarian,
Bullish continuation, Bullish contrarian, default "No Signal" — with the
code's abbreviated labels "Bearish Cont.", "Bearish Contr.", "Bullish Cont.",
"Bullish Contr.". -/
theorem classify_signal_spec (s r v : ℚ) :
    classify_signal s r v 1 (1/2) 1 (-1/5) =
      if s < -1 ∧ r > 1/2 ∧ v > 0 then "Bearish Cont."
      else if s > 1 ∧ r > 1 then "Bearish Contr."
      else if s > 1 ∧ r < -1/5 then "Bullish Cont."
      else if s < -1 ∧ r < -1/5 ∧ v < 0 then "Bullish Contr."
      else "No Signal" := by
  unfold classify_signal
  norm_num

/-- C9 counterexample: on the empty price series — which is "shorter than
the shortest SMA window" — `compute_maa` does not return 50.0: the very
first SMA lookup `sma(close, 5).iloc[-1]` raises `IndexError` (modelled as
`none`), so the exception escapes instead of the neutral default. -/
theorem compute_maa_empty_counterexample :
    compute_maa [] = none ∧ (none : Option ℚ) ≠ some 50 := by
  constructor
  · rfl
  · simp

/-- C9 (amended): percentile-style indicators return the neutral default
50.0 on insufficient data provided some data exists: `compute_maa` on any
nonempty series shorter than the shortest SMA window (5; in particular any
3-point series) returns exactly 50 because every SMA pair is skipped, and
`percentile_rank` with an empty (or all-NaN) history returns exactly 50 for
every value.  The empty price series instead raises (see the
counterexample). -/
theorem insufficient_data_neutral_default :
    (∀ close : List ℚ, close ≠ [] → close.length < 5 →
      compute_maa close = some 50)
    ∧ (∀ (value : ℚ) (history : List (Option ℚ)),
        history.filterMap id = [] → percentile_rank value history = 50) := by
  constructor
  · intro close hne hlen
    have hshort : ∀ p ∈ MA_PAIRS, 5 ≤ p.1 ∧ 5 ≤ p.2 := by decide
    have hsig : ∀ p ∈ MA_PAIRS, maa_signal close p = some none := by
      intro p hp
      have h1 : sma_last close p.1 = some none := by
        unfold sma_last
        rw [if_neg hne, if_pos (lt_of_lt_of_le hlen (hshort p hp).1)]
      have h2 : sma_last close p.2 = some none := by
        unfold sma_last
        rw [if_neg hne, if_pos (lt_of_lt_of_le hlen (hshort p hp).2)]
      unfold maa_signal
      rw [h1, h2]
    unfold compute_maa
    rw [collect_signals_all_skipped close MA_PAIRS hsig]
    rfl
  · intro value history hempty
    unfold percentile_rank
    rw [hempty]
    rfl

/-- C9 witness: the nonempty 3-point series gives MAA exactly 50, and an
all-NaN history gives percentile rank exactly 50. -/
theorem insufficient_data_neutral_default_witness :
    (([(1:ℚ), 2, 3] : List ℚ) ≠ [] ∧ ([(1:ℚ), 2, 3] : List ℚ).length < 5
      ∧ compute_maa [(1:ℚ), 2, 3] = some 50)
    ∧ (([none, none] : List (Option ℚ)).filterMap id = []
        ∧ percentile_rank 7 [none, none] = 50) :=
  ⟨⟨by simp, by decide,
    insufficient_data_neutral_default.1 [(1:ℚ), 2, 3] (by simp) (by decide)⟩,
   ⟨by decide, insufficient_data_neutral_default.2 7 [none, none] (by decide)⟩⟩

/-- C8: RSI edge cases at the default period 14: a constant price series of
length ≥ 15 yields exactly 50 at the last point; a series whose deltas are
all ≥ 0 with at least one strictly positive yields exactly 100. -/
theorem rsi_edge_cases (close : List ℚ) :
    (15 ≤ close.length → (∀ x ∈ close, ∀ y ∈ close, x = y) →
      rsi_last close 14 = 50)
    ∧ ((∀ d ∈ diffs close, 0 ≤ d) → (∃ d ∈ diffs close, 0 < d) →
      rsi_last close 14 = 100) := by
  constructor
  · intro _ hconst
    have hdz : ∀ d ∈ diffs close, d = 0 := by
      intro d hd
      unfold diffs at hd
      rcases List.mem_map.mp hd with ⟨⟨a, b⟩, hp, rfl⟩
      have h1 : a ∈ close := (List.of_mem_zip hp).1
      have h2 : b ∈ close := List.mem_of_mem_tail (List.of_mem_zip hp).2
      have hab := hconst b h2 a h1
      simp [hab]
    have hg : avg_gain close 14 = 0 := by
      unfold avg_gain
      apply ewm_last_zeros
      intro v hv
      rcases List.mem_map.mp hv with ⟨d, hd, rfl⟩
      rw [hdz d hd]
      simp
    have hl : avg_loss close 14 = 0 := by
      unfold avg_loss
      apply ewm_last_zeros
      intro v hv
      rcases List.mem_map.mp hv with ⟨d, hd, rfl⟩
      rw [hdz d hd]
      simp
    unfold rsi_last
    rw [hg, hl]
    norm_num
  · intro hnn hex
    have hl : avg_loss close 14 = 0 := by
      unfold avg_loss
      apply ewm_last_zeros
      intro v hv
      rcases List.mem_map.mp hv with ⟨d, hd, rfl⟩
      have := hnn d hd
      rw [max_eq_right (by linarith : -d ≤ 0)]
    have hg : 0 < avg_gain close 14 := by
      unfold avg_gain
      apply ewm_last_pos _ (by norm_num) (by norm_num)
      · intro v hv
        rcases List.mem_map.mp hv with ⟨d, hd, rfl⟩
        exact le_max_right d 0
      · rcases hex with ⟨d, hd, hdpos⟩
        refine ⟨max d 0, List.mem_map.mpr ⟨d, hd, rfl⟩, ?_⟩
        rw [max_eq_left hdpos.le]
        exact hdpos
    unfold rsi_last
    rw [if_pos ⟨hl, hg⟩]

/-- C8 witness: a constant 15-point series has RSI exactly 50; a strictly
rising 2-point series (all deltas positive) has RSI exactly 100. -/
theorem rsi_edge_cases_witness :
    (15 ≤ (List.replicate 15 (1:ℚ)).length
      ∧ rsi_last (List.replicate 15 (1:ℚ)) 14 = 50)
    ∧ ((∀ d ∈ diffs [(1:ℚ), 2], 0 ≤ d) ∧ (∃ d ∈ diffs [(1:ℚ), 2], 0 < d)
      ∧ rsi_last [(1:ℚ), 2] 14 = 100) :=
  ⟨⟨by decide, (rsi_edge_cases (List.replicate 15 (1:ℚ))).1 (by decide) (by decide)⟩,
   ⟨by norm_num [diffs], by norm_num [diffs],
    (rsi_edge_cases [(1:ℚ), 2]).2 (by norm_num [diffs]) (by norm_num [diffs])⟩⟩

/-- C7: whenever `pca_on_correlation` accepts its input (returns a result),
the retained eigenvalue sequence is non-negative and non-increasing, the
cumulative variance is monotonically non-decreasing, and when the number of
retained components (`min n_components nAssets`) equals the number of
assets, `variance_explained` sums to within 1% of 1 (in fact exactly 1). -/
theorem pca_output_props (nObs nAssets n_components : ℕ) (eigenvalues : List ℚ)
    (hlen : eigenvalues.length = nAssets) (ev ve cv : List ℚ)
    (h : pca_on_correlation nObs nAssets eigenvalues n_components = some (ev, ve, cv)) :
    (∀ x ∈ ev, 0 ≤ x) ∧ ev.Pairwise (· ≥ ·) ∧ cv.Pairwise (· ≤ ·)
    ∧ (min n_components nAssets = nAssets → |ve.sum - 1| ≤ 1 / 100) := by
  unfold pca_on_correlation at h
  split_ifs at h with h1 h2
  simp only [Option.some_inj, Prod.mk.injEq] at h
  obtain ⟨rfl, rfl, rfl⟩ := h
  have hC : ∀ x ∈ clipped_eigs eigenvalues, 0 ≤ x := by
    intro x hx
    rcases List.mem_map.mp hx with ⟨y, _, rfl⟩
    exact le_max_right y 0
  have hT : 0 < (clipped_eigs eigenvalues).sum :=
    (List.sum_nonneg hC).lt_of_ne (Ne.symm h2)
  refine ⟨?_, ?_, ?_, ?_⟩
  · intro x hx
    exact hC x (List.mem_of_mem_take hx)
  · have hS : (eigenvalues.insertionSort (· ≥ ·)).Pairwise (· ≥ ·) :=
      List.sorted_insertionSort (· ≥ ·) eigenvalues
    have hCp : (clipped_eigs eigenvalues).Pairwise (· ≥ ·) := by
      unfold clipped_eigs
      rw [List.pairwise_map]
      exact hS.imp (fun hab => max_le_max hab le_rfl)
    exact List.Pairwise.sublist (List.take_sublist _ _) hCp
  · apply cumsum_mono
    intro x hx
    rcases List.mem_map.mp hx with ⟨y, hy, rfl⟩
    exact div_nonneg (hC y (List.mem_of_mem_take hy)) hT.le
  · intro hk
    have hClen : (clipped_eigs eigenvalues).length = nAssets := by
      unfold clipped_eigs
      rw [List.length_map, (List.perm_insertionSort (· ≥ ·) eigenvalues).length_eq, hlen]
    unfold var_explained retained_eigs
    rw [hk, List.take_of_length_le (le_of_eq hClen), sum_map_div, div_self (by exact h2)]
    norm_num

/-- C7 witness: a concrete accepted input (30 observations, 2 assets,
eigenvalues 1/2 and 3/2, 5 requested components) with its full output. -/
theorem pca_output_props_witness :
    ([(1:ℚ)/2, 3/2].length = 2
      ∧ pca_on_correlation 30 2 [(1:ℚ)/2, 3/2] 5
          = some ([3/2, 1/2], [3/4, 1/4], [3/4, 1]))
    ∧ ((∀ x ∈ [(3:ℚ)/2, 1/2], 0 ≤ x) ∧ [(3:ℚ)/2, 1/2].Pairwise (· ≥ ·)
      ∧ [(3:ℚ)/4, 1].Pairwise (· ≤ ·)
      ∧ (min 5 2 = 2 → |([(3:ℚ)/4, 1/4].sum) - 1| ≤ 1 / 100)) := by
  have hpca : pca_on_correlation 30 2 [(1:ℚ)/2, 3/2] 5
      = some ([3/2, 1/2], [3/4, 1/4], [3/4, 1]) := by
    norm_num [pca_on_correlation, clipped_eigs, retained_eigs, var_explained,
      List.insertionSort, List.orderedInsert, cumsum, List.range_succ]
  exact ⟨⟨by norm_num, hpca⟩,
    pca_output_props 30 2 5 [(1:ℚ)/2, 3/2] (by norm_num) _ _ _ hpca⟩

/-- C10: beyond the documented insufficient-data guards, `pca_on_correlation`
returns `None` whenever the sum of the clipped eigenvalues is zero (fully
degenerate input), so the division defining `variance_explained` is never
reached with a zero denominator. -/
theorem pca_degenerate_none (nObs nAssets n_components : ℕ) (eigenvalues : List ℚ)
    (h30 : 30 ≤ nObs) (h2 : 2 ≤ nAssets)
    (hdeg : (eigenvalues.map (fun x => max x 0)).sum = 0) :
    pca_on_correlation nObs nAssets eigenvalues n_components = none := by
  have hperm : (clipped_eigs eigenvalues).sum = (eigenvalues.map (fun x => max x 0)).sum :=
    ((List.perm_insertionSort (· ≥ ·) eigenvalues).map (fun x => max x 0)).sum_eq
  unfold pca_on_correlation
  rw [if_neg (by omega), if_pos (hperm.trans hdeg)]

/-- C10 witness: 30 observations and 2 assets with eigenvalues 0 and -1
(clipped sum zero) give `none`. -/
theorem pca_degenerate_none_witness :
    30 ≤ 30 ∧ 2 ≤ 2 ∧ (([(0:ℚ), -1].map (fun x => max x 0)).sum = 0)
    ∧ pca_on_correlation 30 2 [(0:ℚ), -1] 5 = none :=
  ⟨le_refl 30, le_refl 2, by norm_num [max_def],
   pca_degenerate_none 30 2 5 [(0:ℚ), -1] (le_refl 30) (le_refl 2)
     (by norm_num [max_def])⟩

/-- C1 counterexample: with tied correlations [0.5, 0.5, 0] the integer rank
column is [1, 1, 3] — pandas average ranks 1.5, 1.5, 3 truncated by
`astype(int)` — which is not a permutation of 1..3. -/
theorem rank_column_ties_counterexample :
    rank_column [1/2, 1/2, 0] = [1, 1, 3]
    ∧ ¬ (rank_column [1/2, 1/2, 0]).Perm [1, 2, 3] := by
  have h : rank_column [1/2, 1/2, 0] = [1, 1, 3] := by
    norm_num [rank_column, rank_desc_avg, List.countP_cons, List.countP_nil]
  refine ⟨h, fun hp => ?_⟩
  rw [h] at hp
  have hc := hp.count_eq 2
  simp [List.count_cons] at hc

/-- C1 (amended): when the correlation values in a column are pairwise
distinct, the integer rank column of `compute_factor_rankings` is exactly a
permutation of 1..N; under ties the tied currencies share the floored
average rank, and the multiset need not be 1..N. -/
theorem rank_column_perm_of_nodup (xs : List ℚ) (hnd : xs.Nodup) :
    (rank_column xs).Perm ((List.range xs.length).map (fun i : ℕ => (i : ℤ) + 1)) := by
  rw [rank_column_nodup_eq xs hnd]
  have hperm := (rank_list_perm xs hnd).map (fun c : ℕ => (c : ℤ) + 1)
  rw [List.map_map] at hperm
  exact hperm

/-- C1 witness: three distinct correlations give ranks that are a
permutation of 1..3. -/
theorem rank_column_perm_of_nodup_witness :
    ([(1:ℚ)/2, 0, 2].Nodup)
    ∧ (rank_column [(1:ℚ)/2, 0, 2]).Perm
        ((List.range ([(1:ℚ)/2, 0, 2].length)).map (fun i : ℕ => (i : ℤ) + 1)) :=
  ⟨by norm_num [List.nodup_cons], rank_column_perm_of_nodup [(1:ℚ)/2, 0, 2]
    (by norm_num [List.nodup_cons])⟩

/-- C2 counterexample: in a normal week with no commodity overlay and 7
currencies of distinct ranks, the middle currency's stored signal is the
empty string "", not the string "No Signal". -/
theorem cars_middle_signal_counterexample :
    (generate_cars_signals (Regime.mk false 0 0 0) sevenRows Factor.rates 2).map
        (fun s => s.signal)
      = ["Bullish", "Bullish", "Bullish", "", "Bearish", "Bearish", "Bearish"]
    ∧ ("" : String) ≠ "No Signal" := by
  constructor
  · rfl
  · decide

/-- C2 (amended): in a non-shock week with no commodity overlay
(|commodity_z| ≤ threshold), `generate_cars_signals` lists the currencies in
ascending order of the chosen performing-factor rank and assigns position
`i` the signal "Bullish" for the top 3 (i < 3), "Bearish" for the bottom 3
(i ≥ N-3), and the empty string (no signal) for every middle currency. -/
theorem generate_cars_signals_normal (regime : Regime) (rows : List RankRow)
    (pf : Factor) (thr : ℚ)
    (hshock : regime.is_shock = false)
    (hoverlay : |regime.commodity_z| ≤ thr) :
    (generate_cars_signals regime rows pf thr).map (fun s => s.currency)
      = (sorted_by_factor pf rows).map (fun r => r.currency)
    ∧ (generate_cars_signals regime rows pf thr).map (fun s => s.signal)
      = (List.range rows.length).map (fun i : ℕ =>
          if i < 3 then "Bullish"
          else if (rows.length : ℤ) - 3 ≤ (i : ℤ) then "Bearish"
          else "") := by
  have hov : ∀ (cm : ℤ) (s : String), commodity_overlay regime thr cm s = s := by
    intro cm s
    unfold commodity_overlay
    rw [if_neg (not_lt.mpr hoverlay)]
  have hlen : (sorted_by_factor pf rows).length = rows.length :=
    (List.perm_insertionSort _ rows).length_eq
  unfold generate_cars_signals
  rw [if_neg (show ¬(regime.is_shock = true) by simp [hshock])]
  constructor
  · rw [List.map_map]
    conv_rhs => rw [← List.enum_map_snd (sorted_by_factor pf rows)]
    rw [List.map_map]
    rfl
  · rw [List.map_map]
    have hfun : ((fun s : SignalRow => s.signal) ∘ (fun p : ℕ × RankRow =>
        SignalRow.mk p.2.currency
          (commodity_overlay regime thr p.2.commodity_rank
            (cars_base_signal p.1 rows.length))
          p.2.equity_rank p.2.rates_rank p.2.commodity_rank))
        = (fun p : ℕ × RankRow => cars_base_signal p.1 rows.length) := by
      funext p
      exact hov p.2.commodity_rank (cars_base_signal p.1 rows.length)
    rw [hfun]
    calc List.map (fun p : ℕ × RankRow => cars_base_signal p.1 rows.length)
          (sorted_by_factor pf rows).enum
        = List.map ((fun i : ℕ => cars_base_signal i rows.length) ∘ Prod.fst)
            (sorted_by_factor pf rows).enum := rfl
      _ = List.map (fun i : ℕ => cars_base_signal i rows.length)
            (List.map Prod.fst (sorted_by_factor pf rows).enum) := by
          rw [List.map_map]
      _ = List.map (fun i : ℕ => cars_base_signal i rows.length)
            (List.range (sorted_by_factor pf rows).length) := by
          rw [List.enum_map_fst]
      _ = List.map (fun i : ℕ => cars_base_signal i rows.length)
            (List.range rows.length) := by
          rw [hlen]
      _ = List.map (fun i : ℕ =>
            if i < 3 then "Bullish"
            else if (rows.length : ℤ) - 3 ≤ (i : ℤ) then "Bearish"
            else "") (List.range rows.length) := by
          apply List.map_congr_left
          intro i _
          simp only [cars_base_signal]

/-- C2 witness: the amended statement applied to the concrete 7-row normal
week. -/
theorem generate_cars_signals_normal_witness :
    ((Regime.mk false 0 0 0).is_shock = false
      ∧ |(Regime.mk false 0 0 0).commodity_z| ≤ 2)
    ∧ ((generate_cars_signals (Regime.mk false 0 0 0) sevenRows Factor.rates 2).map
          (fun s => s.currency)
        = (sorted_by_factor Factor.rates sevenRows).map (fun r => r.currency)
      ∧ (generate_cars_signals (Regime.mk false 0 0 0) sevenRows Factor.rates 2).map
          (fun s => s.signal)
        = (List.range sevenRows.length).map (fun i : ℕ =>
            if i < 3 then "Bullish"
            else if (sevenRows.length : ℤ) - 3 ≤ (i : ℤ) then "Bearish"
            else "")) :=
  ⟨⟨rfl, by norm_num⟩,
   generate_cars_signals_normal (Regime.mk false 0 0 0) sevenRows Factor.rates 2 rfl
     (by norm_num)⟩
